import Mathlib

/-!
Shallow embedding of the `overridehosts` interception shim
(`src/liboverridehosts.cpp`) and proofs about its specification.

Strings are modelled as Lean `String` (lists of characters standing for the
C byte strings, faithful on the ASCII range the shim manipulates).  The
process-wide `unordered_map` is modelled as an association list with
overwrite-on-insert, which captures exactly the lookup behaviour and the
key-uniqueness invariant of the real map.
-/

namespace OverrideHosts

/-- C `tolower` in the default locale, restricted to ASCII: `'A'..'Z'`
map to `'a'..'z'`, everything else is unchanged (embeds the per-character
step of `to_lower`). -/
def toLowerChar (c : Char) : Char :=
  if 65 ≤ c.toNat && c.toNat ≤ 90 then Char.ofNat (c.toNat + 32) else c

/-- `to_lower` from the source: lower-case every character of the string. -/
def to_lower (s : String) : String :=
  ⟨s.data.map toLowerChar⟩

/-- C `isspace` in the default locale: space, `\t`, `\n`, `\v`, `\f`, `\r`. -/
def isSpaceC (c : Char) : Bool :=
  c == ' ' || c == '\t' || c == '\n' || c == '\x0b' || c == '\x0c' || c == '\r'

/-- `trim` from the source, on character lists: drop leading and trailing
`isspace` characters. -/
def trimChars (l : List Char) : List Char :=
  ((l.dropWhile isSpaceC).reverse.dropWhile isSpaceC).reverse

/-- `trim` from the source, on strings. -/
def trim (s : String) : String :=
  ⟨trimChars s.data⟩

/-- The comma-splitting loop of `parse_map_env` (`while (i < all.size())`
with `j = all.find(',', i)`): splits on every comma; a trailing empty
segment after a final comma is never visited by the loop, so it is not
produced here either. -/
def splitCommas : List Char → List (List Char)
  | [] => []
  | c :: rest =>
    if c == ',' then [] :: splitCommas rest
    else
      match splitCommas rest with
      | [] => [[c]]
      | seg :: segs => (c :: seg) :: segs

/-- The bracket-stripping step of `parse_map_env`: if the address text is
non-empty, starts with `[`, ends with `]` and has size at least 3, strip
the surrounding brackets (`ip.substr(1, ip.size() - 2)`). -/
def stripBrackets (ip : List Char) : List Char :=
  if ip ≠ [] ∧ ip.head? = some '[' ∧ ip.getLast? = some ']' ∧ 3 ≤ ip.length
  then (ip.drop 1).dropLast
  else ip

/-- The per-item body of the `parse_map_env` loop: trim the item, skip it
when it is empty, has no colon, the colon is first, or nothing follows the
colon; otherwise lower-case and trim the host part, trim and bracket-strip
the address part, and keep the pair only when both are non-empty. -/
def parseItem (raw : List Char) : Option (String × String) :=
  let item := trimChars raw
  if item = [] then none
  else
    match item.findIdx? (· == ':') with
    | none => none
    | some c =>
      if c = 0 then none
      else if item.length ≤ c + 1 then none
      else
        let host := (trimChars (item.take c)).map toLowerChar
        let ip := stripBrackets (trimChars (item.drop (c + 1)))
        if host ≠ [] ∧ ip ≠ [] then some (⟨host⟩, ⟨ip⟩) else none

/-- The map under study: hostname (lower-cased) to IP text. -/
abbrev Table := List (String × String)

/-- `g_map[host] = ip`: overwrite the entry for `host` in place if present,
append otherwise (the association-list model of `unordered_map` insert). -/
def mapInsert (m : Table) (k v : String) : Table :=
  if m.any (fun p => p.1 == k) then
    m.map (fun p => if p.1 == k then (k, v) else p)
  else
    m ++ [(k, v)]

/-- `g_map.find(k)`: the value stored for key `k`, if any. -/
def mapFind (m : Table) (k : String) : Option String :=
  (m.find? (fun p => p.1 == k)).map (·.2)

/-- One iteration of the `parse_map_env` loop: insert the item's pair if
it is well-formed, leave the table unchanged otherwise. -/
def buildStep (m : Table) (raw : List Char) : Table :=
  match parseItem raw with
  | some (h, ip) => mapInsert m h ip
  | none => m

/-- Fold the `parse_map_env` loop body over a list of raw items. -/
def buildItems (items : List (List Char)) : Table :=
  items.foldl buildStep []

/-- `parse_map_env`: `none` stands for an unset `OVERRIDEHOSTS` variable;
an unset or empty variable yields the empty table, otherwise the string is
split on commas and each item is processed in order. -/
def parse_map_env (env : Option String) : Table :=
  match env with
  | none => []
  | some s => if s.data = [] then [] else buildItems (splitCommas s.data)

/-- `lookup_ip_for`, pure form over an already-built table: a null
(`none`) or empty name is a miss before the table is consulted; otherwise
the name is lower-cased and looked up. -/
def lookup_ip_for (tbl : Table) (node : Option String) : Option String :=
  match node with
  | none => none
  | some n => if n.data = [] then none else mapFind tbl (to_lower n)

/-- The state of the lazy one-time initialization: `none` before
`parse_map_env` has run, `some tbl` afterwards. -/
structure ShimState where
  table : Option Table
deriving DecidableEq

/-- `ensure_inited`: run `parse_map_env` exactly once (sequential model of
the `std::call_once` guard). -/
def ensure_inited (env : Option String) (s : ShimState) : ShimState :=
  match s.table with
  | some _ => s
  | none => ⟨some (parse_map_env env)⟩

/-- `lookup_ip_for`, stateful form: the null/empty check happens before
`ensure_inited`, so such a call returns a miss with the state untouched. -/
def lookup_ip_forS (env : Option String) (node : Option String) (s : ShimState) :
    Option String × ShimState :=
  match node with
  | none => (none, s)
  | some n =>
    if n.data = [] then (none, s)
    else
      let s1 := ensure_inited env s
      (mapFind (s1.table.getD []) (to_lower n), s1)

/-! ### Address-literal classification (`inet_pton`, glibc algorithm) -/

/-- The numeric value of a hexadecimal digit, if `c` is one. -/
def hexDigit (c : Char) : Option Nat :=
  if 48 ≤ c.toNat && c.toNat ≤ 57 then some (c.toNat - 48)
  else if 97 ≤ c.toNat && c.toNat ≤ 102 then some (c.toNat - 97 + 10)
  else if 65 ≤ c.toNat && c.toNat ≤ 70 then some (c.toNat - 65 + 10)
  else none

/-- The digit-accumulating loop of glibc `inet_pton4`.  `cur` is the octet
being built (`*tp`), `octets` the number of octets started, `sawDigit`
whether the current octet has a digit, `acc` the committed octets. -/
def pton4Aux : List Char → Nat → Nat → Bool → List Nat → Option (List Nat)
  | [], cur, octets, _, acc =>
    if octets < 4 then none else some (acc ++ [cur])
  | ch :: rest, cur, octets, sawDigit, acc =>
    if 48 ≤ ch.toNat && ch.toNat ≤ 57 then
      let d := ch.toNat - 48
      let nv := cur * 10 + d
      if sawDigit && cur == 0 then none
      else if 255 < nv then none
      else if sawDigit then pton4Aux rest nv octets true acc
      else if 4 < octets + 1 then none
      else pton4Aux rest nv (octets + 1) true acc
    else if ch == '.' && sawDigit then
      if octets == 4 then none
      else pton4Aux rest 0 octets false (acc ++ [cur])
    else none

/-- `inet_pton(AF_INET, s)`: the four address bytes when `s` is a strict
dotted-quad IPv4 literal, `none` otherwise. -/
def inet_pton4 (s : List Char) : Option (List Nat) :=
  pton4Aux s 0 0 false []

/-- The post-loop phase of glibc `inet_pton6`: commit a pending hex group,
then expand the `::` gap (recorded byte position `colonp`) with zeros; the
result must be exactly 16 bytes. -/
def pton6Finish (bytes : List Nat) (val : Nat) (sawXdigit : Bool) (colonp : Option Nat) :
    Option (List Nat) :=
  let commit : Option (List Nat) :=
    if sawXdigit then
      if 16 < bytes.length + 2 then none
      else some (bytes ++ [val / 256, val % 256])
    else some bytes
  match commit with
  | none => none
  | some bs =>
    match colonp with
    | some cp =>
      if bs.length = 16 then none
      else some (bs.take cp ++ List.replicate (16 - bs.length) 0 ++ bs.drop cp)
    | none => if bs.length = 16 then some bs else none

/-- The main loop of glibc `inet_pton6`.  `curtok` is the suffix starting
at the current token (used by the trailing dotted-quad case), `val` the
hex group being accumulated, `bytes` the committed bytes, `colonp` the
byte position of a `::` if one was seen. -/
def pton6Aux : List Char → List Char → Nat → Bool → List Nat → Option Nat → Option (List Nat)
  | [], _, val, sawX, bytes, colonp => pton6Finish bytes val sawX colonp
  | ch :: rest, curtok, val, sawX, bytes, colonp =>
    match hexDigit ch with
    | some d =>
      let v := val * 16 + d
      if 65535 < v then none
      else pton6Aux rest curtok v true bytes colonp
    | none =>
      if ch == ':' then
        if !sawX then
          match colonp with
          | some _ => none
          | none => pton6Aux rest rest val false bytes (some bytes.length)
        else if rest = [] then none
        else if 16 < bytes.length + 2 then none
        else pton6Aux rest rest 0 false (bytes ++ [val / 256, val % 256]) colonp
      else if ch == '.' && bytes.length + 4 ≤ 16 then
        match inet_pton4 curtok with
        | some b4 => pton6Finish (bytes ++ b4) 0 false colonp
        | none => none
      else none

/-- `inet_pton(AF_INET6, s)`: the 16 address bytes when `s` is an IPv6
literal, `none` otherwise.  A leading single colon is rejected unless it
starts a `::`; for a leading `::` the loop starts at the second colon,
exactly as in glibc. -/
def inet_pton6 (s : List Char) : Option (List Nat) :=
  match s with
  | ':' :: rest =>
    match rest with
    | ':' :: _ => pton6Aux rest rest 0 false [] none
    | _ => none
  | _ => pton6Aux s s 0 false [] none

/-! ### The result synthesizer and interceptors -/

/-- `AF_UNSPEC` -/
def AF_UNSPEC : Int := 0
/-- `AF_INET` -/
def AF_INET : Int := 2
/-- `AF_INET6` -/
def AF_INET6 : Int := 10
/-- `EAI_NONAME` -/
def EAI_NONAME : Int := -2
/-- `EAI_FAIL` -/
def EAI_FAIL : Int := -4

/-- The caller's `addrinfo` hints, reduced to the three fields the shim
reads. -/
structure Hints where
  ai_family : Int
  ai_socktype : Int
  ai_protocol : Int
deriving DecidableEq

/-- `hints ? hints->ai_family : AF_UNSPEC` -/
def hintFamily (hints : Option Hints) : Int :=
  match hints with
  | some h => h.ai_family
  | none => AF_UNSPEC

/-- `hints ? hints->ai_socktype : 0` -/
def hintSocktype (hints : Option Hints) : Int :=
  match hints with
  | some h => h.ai_socktype
  | none => 0

/-- `hints ? hints->ai_protocol : 0` -/
def hintProtocol (hints : Option Hints) : Int :=
  match hints with
  | some h => h.ai_protocol
  | none => 0

/-- The socket address stored behind `ai_addr`: a `sockaddr_in` holding 4
address bytes or a `sockaddr_in6` holding 16. -/
inductive SockAddr : Type where
  | v4 (bytes : List Nat)
  | v6 (bytes : List Nat)
deriving DecidableEq

/-- A synthesized `addrinfo` node: family, socktype, protocol, address,
`ai_addrlen`, and the `ai_next` link. -/
inductive AddrInfo : Type where
  | mk (family socktype protocol : Int) (addr : SockAddr) (addrlen : Nat)
       (next : Option AddrInfo)

/-- `ai_family` -/
def AddrInfo.family : AddrInfo → Int
  | .mk f _ _ _ _ _ => f

/-- `ai_socktype` -/
def AddrInfo.socktype : AddrInfo → Int
  | .mk _ s _ _ _ _ => s

/-- `ai_protocol` -/
def AddrInfo.protocol : AddrInfo → Int
  | .mk _ _ p _ _ _ => p

/-- `ai_addr` -/
def AddrInfo.addr : AddrInfo → SockAddr
  | .mk _ _ _ a _ _ => a

/-- `ai_addrlen` -/
def AddrInfo.addrlen : AddrInfo → Nat
  | .mk _ _ _ _ l _ => l

/-- `ai_next` -/
def AddrInfo.next : AddrInfo → Option AddrInfo
  | .mk _ _ _ _ _ n => n

/-- The number of nodes reachable through `ai_next`, this one included. -/
def AddrInfo.chainLength : AddrInfo → Nat
  | .mk _ _ _ _ _ none => 1
  | .mk _ _ _ _ _ (some t) => 1 + t.chainLength

/-- Outcome of `make_addrinfo_list`: a result list or an `EAI_*` code.
(The `*res` out-parameter is modelled as the returned value; the
`res == nullptr` argument check and the `calloc`-failure `EAI_MEMORY`
paths concern the C calling convention and allocation, which the model
does not represent.) -/
inductive GaiResult : Type where
  | ok (ai : AddrInfo)
  | err (code : Int)

/-- `make_addrinfo_list`: classify `ip` with `inet_pton`, apply the family
hint, and synthesize a single `addrinfo` node.  `sizeof(sockaddr_in) = 16`
and `sizeof(sockaddr_in6) = 28` on the target platform. -/
def make_addrinfo_list (ip : String) (hints : Option Hints) : GaiResult :=
  let family := hintFamily hints
  let socktype := hintSocktype hints
  let protocol := hintProtocol hints
  let a4 := inet_pton4 ip.data
  let a6 := inet_pton6 ip.data
  let is4 := a4.isSome
  let is6 := a6.isSome
  if !is4 && !is6 then .err EAI_NONAME
  else if family == AF_INET && !is4 then .err EAI_NONAME
  else if family == AF_INET6 && !is6 then .err EAI_NONAME
  else
    let outFamily := if is4 then AF_INET else AF_INET6
    if outFamily == AF_INET then
      .ok (.mk AF_INET socktype protocol (.v4 (a4.getD [])) 16 none)
    else
      .ok (.mk AF_INET6 socktype protocol (.v6 (a6.getD [])) 28 none)

/-- The two outcomes of an interceptor call: served from the override
table, or delegated unchanged to the real resolver located via `dlsym`. -/
inductive CallResult (α : Type) : Type where
  | served (r : α)
  | delegated
deriving DecidableEq

/-- The legacy `hostent` record as the shim fills it: queried name,
`h_addrtype`, `h_length`, and the address entries before the terminating
null slot (`h_aliases` is null). -/
structure Hostent where
  h_name : String
  h_addrtype : Int
  h_length : Nat
  h_addr_list : List (List Nat)
deriving DecidableEq

/-- `make_hostent_v4`: null unless `ip` is an IPv4 literal; otherwise a
one-address IPv4 `hostent` for the queried name. -/
def make_hostent_v4 (name ip : String) : Option Hostent :=
  match inet_pton4 ip.data with
  | none => none
  | some b => some ⟨name, AF_INET, 4, [b]⟩

/-- The `getaddrinfo` interceptor: on an override hit the service argument
is ignored and the synthesizer runs; on a miss the call is delegated. -/
def getaddrinfo (tbl : Table) (node : Option String) (hints : Option Hints) :
    CallResult GaiResult :=
  match lookup_ip_for tbl node with
  | some ip => .served (make_addrinfo_list ip hints)
  | none => .delegated

/-- The `gethostbyname` interceptor: on an override hit it returns
`make_hostent_v4` (null when the stored address is not IPv4); on a miss it
delegates. -/
def gethostbyname (tbl : Table) (name : Option String) : CallResult (Option Hostent) :=
  match lookup_ip_for tbl name with
  | some ip => .served (make_hostent_v4 ((name.getD "")) ip)
  | none => .delegated

/-- The `gethostbyname2` interceptor: on an override hit, serve an IPv4
record for `AF_INET` and a null result for every other family; on a miss,
delegate. -/
def gethostbyname2 (tbl : Table) (name : Option String) (af : Int) :
    CallResult (Option Hostent) :=
  match lookup_ip_for tbl name with
  | some ip =>
    if af == AF_INET then .served (make_hostent_v4 ((name.getD "")) ip)
    else .served none
  | none => .delegated

/-! ### Character-level lemmas -/

theorem toNat_ofNat_small (n : Nat) (h : n < 55296) : (Char.ofNat n).toNat = n := by
  unfold Char.ofNat
  rw [dif_pos (Or.inl h)]
  rfl

theorem toLowerChar_toNat_of_upper (c : Char) (h1 : 65 ≤ c.toNat) (h2 : c.toNat ≤ 90) :
    (toLowerChar c).toNat = c.toNat + 32 := by
  unfold toLowerChar
  rw [if_pos (by simp [h1, h2])]
  exact toNat_ofNat_small _ (by omega)

theorem toLowerChar_eq_self (c : Char) (h : ¬(65 ≤ c.toNat ∧ c.toNat ≤ 90)) :
    toLowerChar c = c := by
  unfold toLowerChar
  rw [if_neg (by simpa using h)]

theorem toLowerChar_idem (c : Char) : toLowerChar (toLowerChar c) = toLowerChar c := by
  by_cases h : 65 ≤ c.toNat ∧ c.toNat ≤ 90
  · have hv : (toLowerChar c).toNat = c.toNat + 32 := toLowerChar_toNat_of_upper c h.1 h.2
    exact toLowerChar_eq_self _ (by omega)
  · rw [toLowerChar_eq_self c h]
    exact toLowerChar_eq_self c h

theorem to_lower_idem (s : String) : to_lower (to_lower s) = to_lower s := by
  unfold to_lower
  apply congrArg
  rw [List.map_map]
  simp [Function.comp_def, toLowerChar_idem]

theorem to_lower_data_eq_nil (s : String) : (to_lower s).data = [] ↔ s.data = [] := by
  simp [to_lower]

/-- C6: for every table and every name, looking a name up is the same as
looking up its lower-cased form; hence any two names with the same
lower-casing (any case variants of one host) find the same address. -/
theorem lookup_case_insensitive :
    (∀ tbl n, lookup_ip_for tbl (some n) = lookup_ip_for tbl (some (to_lower n)))
  ∧ (∀ tbl a b, to_lower a = to_lower b →
      lookup_ip_for tbl (some a) = lookup_ip_for tbl (some b)) := by
  have key : ∀ tbl n, lookup_ip_for tbl (some n) = lookup_ip_for tbl (some (to_lower n)) := by
    intro tbl n
    simp only [lookup_ip_for]
    by_cases h : n.data = []
    · rw [if_pos h, if_pos ((to_lower_data_eq_nil n).mpr h)]
    · rw [if_neg h, if_neg (fun hh => h ((to_lower_data_eq_nil n).mp hh)), to_lower_idem]
  exact ⟨key, fun tbl a b h => by rw [key tbl a, key tbl b, h]⟩

/-- C6 witness: the variant `DB` of the configured host `db` finds the
same address as `db` itself. -/
theorem lookup_case_insensitive_witness :
    lookup_ip_for (parse_map_env (some "db:10.0.0.10")) (some "DB")
      = lookup_ip_for (parse_map_env (some "db:10.0.0.10")) (some "db") :=
  lookup_case_insensitive.2 (parse_map_env (some "db:10.0.0.10")) "DB" "db" rfl

/-- C9: a null or empty name is a miss returned before `ensure_inited`
runs (the state is returned untouched, whether or not the table is built),
and every interceptor therefore takes the delegation path on such a
name. -/
theorem null_or_empty_name_misses_without_init :
    (∀ env s, lookup_ip_forS env none s = (none, s))
  ∧ (∀ env s, lookup_ip_forS env (some "") s = (none, s))
  ∧ (∀ tbl hints, getaddrinfo tbl none hints = .delegated)
  ∧ (∀ tbl hints, getaddrinfo tbl (some "") hints = .delegated)
  ∧ (∀ tbl, gethostbyname tbl none = .delegated)
  ∧ (∀ tbl, gethostbyname tbl (some "") = .delegated)
  ∧ (∀ tbl af, gethostbyname2 tbl none af = .delegated)
  ∧ (∀ tbl af, gethostbyname2 tbl (some "") af = .delegated) := by
  refine ⟨?_, ?_, ?_, ?_, ?_, ?_, ?_, ?_⟩ <;> intros <;> rfl

/-- C3: on an override hit, `gethostbyname2` with family `AF_INET6`
returns a null record without forwarding; on a miss, any family is
forwarded to the real resolver. -/
theorem gethostbyname2_ipv6_empty_and_miss_forwards :
    (∀ tbl name ip, lookup_ip_for tbl name = some ip →
      gethostbyname2 tbl name AF_INET6 = .served none)
  ∧ (∀ tbl name af, lookup_ip_for tbl name = none →
      gethostbyname2 tbl name af = .delegated) := by
  constructor
  · intro tbl name ip h
    simp only [gethostbyname2, h]
    rfl
  · intro tbl name af h
    simp only [gethostbyname2, h]

/-- C3 witness: with `db` overridden, an `AF_INET6` query for `db` is
served null, and a query for an absent host is delegated. -/
theorem gethostbyname2_ipv6_empty_and_miss_forwards_witness :
    gethostbyname2 (parse_map_env (some "db:10.0.0.10")) (some "db") AF_INET6 = .served none
  ∧ gethostbyname2 (parse_map_env (some "db:10.0.0.10")) (some "cache") AF_INET = .delegated :=
  ⟨gethostbyname2_ipv6_empty_and_miss_forwards.1 _ _ "10.0.0.10" rfl,
   gethostbyname2_ipv6_empty_and_miss_forwards.2 _ _ AF_INET rfl⟩

/-- C1 counterexample: `gethostbyname` on a host overridden with an IPv6
address returns a served null record — it does not delegate to the real
resolver as the claim states, and a served null is not a delegation. -/
theorem gethostbyname_v6_hit_not_forwarded :
    gethostbyname (parse_map_env (some "v6host:2001:db8::1")) (some "v6host")
      = CallResult.served (none : Option Hostent)
  ∧ CallResult.served (none : Option Hostent) ≠ CallResult.delegated :=
  ⟨rfl, fun h => CallResult.noConfusion h⟩

/-- C1 amended: on an override hit whose stored address is not an IPv4
literal, `gethostbyname` returns a null record (fails outright) without
forwarding to the real resolver; it never fabricates an IPv4 answer. -/
theorem gethostbyname_nonv4_hit_returns_null (tbl : Table) (name : Option String) (ip : String)
    (hhit : lookup_ip_for tbl name = some ip)
    (hnot4 : inet_pton4 ip.data = none) :
    gethostbyname tbl name = .served none := by
  simp only [gethostbyname, hhit, make_hostent_v4, hnot4]

/-- C1 witness: the amended behaviour at a concrete IPv6-only override. -/
theorem gethostbyname_nonv4_hit_returns_null_witness :
    gethostbyname (parse_map_env (some "x:2001:db8::1")) (some "x") = .served none :=
  gethostbyname_nonv4_hit_returns_null _ _ "2001:db8::1" rfl rfl

/-! ### Association-list lemmas for the table -/

theorem find?_replace_self (m : Table) (k v : String)
    (h : m.any (fun p => p.1 == k) = true) :
    (m.map (fun p => if p.1 == k then (k, v) else p)).find? (fun p => p.1 == k)
      = some (k, v) := by
  induction m with
  | nil => simp at h
  | cons p t ih =>
    by_cases hp : p.1 = k
    · rw [List.map_cons, if_pos (beq_iff_eq.mpr hp)]
      simp only [List.find?_cons]
      simp
    · have hp' : (p.1 == k) = false := beq_eq_false_iff_ne.mpr hp
      simp only [List.any_cons, hp', Bool.false_or] at h
      rw [List.map_cons, if_neg (by rw [hp']; exact Bool.false_ne_true)]
      simp only [List.find?_cons, hp']
      exact ih h

theorem find?_append_single (m : Table) (k v : String)
    (h : m.any (fun p => p.1 == k) = false) :
    ((m ++ [(k, v)]).find? (fun p => p.1 == k)) = some (k, v) := by
  have h1 : m.find? (fun p => p.1 == k) = none := by
    rw [List.find?_eq_none]
    intro x hx hbeq
    exact List.any_eq_false.mp h x hx hbeq
  rw [List.find?_append, h1]
  simp only [List.find?_cons]
  simp

theorem mapFind_insert_self (m : Table) (k v : String) :
    mapFind (mapInsert m k v) k = some v := by
  unfold mapInsert mapFind
  by_cases h : m.any (fun p => p.1 == k)
  · rw [if_pos h, find?_replace_self m k v h]
    rfl
  · rw [if_neg h, find?_append_single m k v (by rwa [Bool.not_eq_true] at h)]
    rfl

theorem find?_replace_other (m : Table) (k v k' : String) (hne : k' ≠ k) :
    (m.map (fun p => if p.1 == k then (k, v) else p)).find? (fun p => p.1 == k')
      = m.find? (fun p => p.1 == k') := by
  induction m with
  | nil => rfl
  | cons p t ih =>
    by_cases hp : p.1 = k
    · have hk : (k == k') = false := beq_eq_false_iff_ne.mpr (Ne.symm hne)
      have hpk : (p.1 == k') = false := by rw [hp]; exact hk
      rw [List.map_cons, if_pos (beq_iff_eq.mpr hp)]
      simp only [List.find?_cons, hk, hpk]
      exact ih
    · have hp' : (p.1 == k) = false := beq_eq_false_iff_ne.mpr hp
      rw [List.map_cons, if_neg (by rw [hp']; exact Bool.false_ne_true)]
      by_cases hq : p.1 = k'
      · have hq' : (p.1 == k') = true := beq_iff_eq.mpr hq
        simp only [List.find?_cons, hq']
      · have hq' : (p.1 == k') = false := beq_eq_false_iff_ne.mpr hq
        simp only [List.find?_cons, hq']
        exact ih

theorem find?_append_other (m : Table) (k v k' : String) (hne : k' ≠ k) :
    ((m ++ [(k, v)]).find? (fun p => p.1 == k')) = m.find? (fun p => p.1 == k') := by
  have hk : (k == k') = false := beq_eq_false_iff_ne.mpr (Ne.symm hne)
  have h1 : [(k, v)].find? (fun p => p.1 == k') = none := by
    simp only [List.find?_cons, hk]
    rfl
  rw [List.find?_append, h1, Option.or_none]

theorem mapFind_insert_ne (m : Table) (k v k' : String) (hne : k' ≠ k) :
    mapFind (mapInsert m k v) k' = mapFind m k' := by
  unfold mapInsert mapFind
  by_cases h : m.any (fun p => p.1 == k)
  · rw [if_pos h, find?_replace_other m k v k' hne]
  · rw [if_neg h, find?_append_other m k v k' hne]

theorem keys_mapInsert_nodup (m : Table) (k v : String)
    (h : (m.map Prod.fst).Nodup) :
    ((mapInsert m k v).map Prod.fst).Nodup := by
  unfold mapInsert
  by_cases hm : m.any (fun p => p.1 == k)
  · rw [if_pos hm]
    have hkeys : (m.map (fun p => if p.1 == k then (k, v) else p)).map Prod.fst
        = m.map Prod.fst := by
      rw [List.map_map]
      refine List.map_congr_left ?_
      intro p _
      by_cases hpk : p.1 = k
      · simp [hpk]
      · simp [hpk]
    rw [hkeys]
    exact h
  · rw [if_neg hm, List.map_append, List.nodup_append]
    refine ⟨h, by simp, ?_⟩
    intro x hx hx'
    simp at hx'
    obtain ⟨p, hp, hpk⟩ := List.mem_map.mp hx
    have hm' : m.any (fun q => q.1 == k) = false := by
      rwa [Bool.not_eq_true] at hm
    exact List.any_eq_false.mp hm' p hp (beq_iff_eq.mpr (hpk.trans hx'))

theorem foldl_build_keys_nodup (items : List (List Char)) (m : Table)
    (h : (m.map Prod.fst).Nodup) :
    ((items.foldl buildStep m).map Prod.fst).Nodup := by
  induction items generalizing m with
  | nil => simpa using h
  | cons raw t ih =>
    rw [List.foldl_cons]
    apply ih
    unfold buildStep
    cases hp : parseItem raw with
    | none => exact h
    | some pr => exact keys_mapInsert_nodup m pr.1 pr.2 h

theorem foldl_build_find_of_no_key (post : List (List Char)) (m : Table) (h : String)
    (hno : ∀ it ∈ post, ∀ p, parseItem it = some p → p.1 ≠ h) :
    mapFind (post.foldl buildStep m) h = mapFind m h := by
  induction post generalizing m with
  | nil => rfl
  | cons raw t ih =>
    rw [List.foldl_cons]
    rw [ih _ (fun it hit => hno it (List.mem_cons_of_mem _ hit))]
    cases hp : parseItem raw with
    | none => simp only [buildStep, hp]
    | some pr =>
      simp only [buildStep, hp]
      exact mapFind_insert_ne m pr.1 pr.2 h
        (fun he => (hno raw (List.mem_cons_self _ _) pr hp) he.symm)

/-- C5: the keys of every built table are unique, and a well-formed entry
whose host has no later well-formed occurrence determines the looked-up
value — the last occurrence in parse order wins.  (The second conjunct
connects `parse_map_env` on a non-empty string to the item fold.) -/
theorem parse_last_occurrence_wins_and_keys_unique :
    (∀ env, ((parse_map_env env).map Prod.fst).Nodup)
  ∧ (∀ s : String, s.data ≠ [] → parse_map_env (some s) = buildItems (splitCommas s.data))
  ∧ (∀ pre post item h v,
      parseItem item = some (h, v) →
      (∀ it ∈ post, ∀ p, parseItem it = some p → p.1 ≠ h) →
      mapFind (buildItems (pre ++ item :: post)) h = some v) := by
  refine ⟨?_, ?_, ?_⟩
  · intro env
    match env with
    | none => simp [parse_map_env]
    | some s =>
      simp only [parse_map_env]
      by_cases hd : s.data = []
      · simp [hd]
      · rw [if_neg hd]
        exact foldl_build_keys_nodup _ _ (by simp)
  · intro s hs
    simp only [parse_map_env]
    rw [if_neg hs]
  · intro pre post item h v hitem hno
    unfold buildItems
    rw [List.foldl_append, List.foldl_cons]
    rw [foldl_build_find_of_no_key post _ h hno]
    simp only [buildStep, hitem]
    exact mapFind_insert_self _ h v

/-- C5 witness: with `db` configured twice, the lookup returns the value
of the later entry. -/
theorem parse_last_occurrence_wins_witness :
    mapFind (buildItems (["db:10.0.0.10".data] ++ "db:1.2.3.9".data :: [])) "db"
      = some "1.2.3.9" :=
  parse_last_occurrence_wins_and_keys_unique.2.2
    ["db:10.0.0.10".data] [] "db:1.2.3.9".data "db" "1.2.3.9" rfl (by simp)

/-- C4: a malformed item anywhere in the item list is skipped without
affecting the entries built from the items around it; the three malformed
shapes from the spec are indeed skipped, and the mixed configuration
`db:10.0.0.10,garbage,redis:10.0.0.11` yields exactly the two valid
mappings. -/
theorem parse_skips_malformed :
    (∀ pre post bad, parseItem bad = none →
      buildItems (pre ++ bad :: post) = buildItems (pre ++ post))
  ∧ parseItem "foo".data = none
  ∧ parseItem ":nohost".data = none
  ∧ parseItem "noaddr:".data = none
  ∧ parse_map_env (some "db:10.0.0.10,garbage,redis:10.0.0.11")
      = [("db", "10.0.0.10"), ("redis", "10.0.0.11")] := by
  refine ⟨?_, rfl, rfl, rfl, rfl⟩
  intro pre post bad hbad
  unfold buildItems
  rw [List.foldl_append, List.foldl_append, List.foldl_cons]
  simp only [buildStep, hbad]

/-- C4 witness: dropping the malformed `garbage` item leaves the fold over
the surrounding well-formed items unchanged. -/
theorem parse_skips_malformed_witness :
    buildItems (["db:10.0.0.10".data] ++ "garbage".data :: ["redis:10.0.0.11".data])
      = buildItems (["db:10.0.0.10".data] ++ ["redis:10.0.0.11".data]) :=
  parse_skips_malformed.1 ["db:10.0.0.10".data] ["redis:10.0.0.11".data] "garbage".data rfl

/-- C7 counterexample: the claim fails on the two-character address text
`[]`, which is enclosed in matching brackets yet stored verbatim (the code
strips brackets only when the text has at least 3 characters), not as the
empty stripped text. -/
theorem bracket_strip_empty_counterexample :
    parse_map_env (some "a:[]") = [("a", "[]")]
  ∧ mapFind (parse_map_env (some "a:[]")) "a" ≠ some "" :=
  ⟨rfl, by decide⟩

/-- C7 amended: for every address text of the form `[` … `]` with a
non-empty enclosed text (hence length at least 3), the stored address is
the text with the brackets stripped; in particular `[2001:db8::1]` is
stored and looked up as `2001:db8::1`. -/
theorem bracket_strip_nonempty_inner (inner : List Char) (h : inner ≠ []) :
    stripBrackets (('[' :: inner) ++ [']']) = inner
  ∧ mapFind (parse_map_env (some "h6:[2001:db8::1]")) "h6" = some "2001:db8::1" := by
  constructor
  · have hc : (('[' :: inner) ++ [']']) ≠ [] ∧ (('[' :: inner) ++ [']']).head? = some '['
        ∧ (('[' :: inner) ++ [']']).getLast? = some ']'
        ∧ 3 ≤ (('[' :: inner) ++ [']']).length := by
      refine ⟨by simp, by simp, List.getLast?_concat _, ?_⟩
      have hlen := List.length_pos.mpr h
      simp only [List.length_append, List.length_cons]
      omega
    unfold stripBrackets
    rw [if_pos hc, List.cons_append]
    simp [List.dropLast_concat]
  · rfl

/-- C7 witness: the amended bracket-stripping law at the concrete IPv6
literal from the spec. -/
theorem bracket_strip_nonempty_inner_witness :
    stripBrackets (('[' :: "2001:db8::1".data) ++ [']']) = "2001:db8::1".data
  ∧ mapFind (parse_map_env (some "h6:[2001:db8::1]")) "h6" = some "2001:db8::1" :=
  bracket_strip_nonempty_inner "2001:db8::1".data (by decide)

/-- C8: every successful synthesis yields a node whose `ai_next` is empty
(the chain has exactly one element) and whose socket-type and protocol are
the caller's hint values verbatim (zero without hints). -/
theorem make_addrinfo_single_node (ip : String) (hints : Option Hints) (ai : AddrInfo)
    (h : make_addrinfo_list ip hints = .ok ai) :
    ai.next = none ∧ ai.chainLength = 1
  ∧ ai.socktype = hintSocktype hints ∧ ai.protocol = hintProtocol hints := by
  simp only [make_addrinfo_list] at h
  split at h
  · cases h
  · split at h
    · cases h
    · split at h
      · cases h
      · split at h
        · cases h
          exact ⟨rfl, rfl, rfl, rfl⟩
        · cases h
          exact ⟨rfl, rfl, rfl, rfl⟩

/-- C8 witness: the single-node shape at a concrete IPv4 override with no
hints. -/
theorem make_addrinfo_single_node_witness :
    (AddrInfo.mk AF_INET 0 0 (SockAddr.v4 [10, 0, 0, 10]) 16 none).next = none
  ∧ (AddrInfo.mk AF_INET 0 0 (SockAddr.v4 [10, 0, 0, 10]) 16 none).chainLength = 1
  ∧ (AddrInfo.mk AF_INET 0 0 (SockAddr.v4 [10, 0, 0, 10]) 16 none).socktype = hintSocktype none
  ∧ (AddrInfo.mk AF_INET 0 0 (SockAddr.v4 [10, 0, 0, 10]) 16 none).protocol
      = hintProtocol none :=
  make_addrinfo_single_node "10.0.0.10" none _ rfl

/-- C2: the synthesizer classifies the address text with `inet_pton`:
neither family parses it ⇒ `EAI_NONAME`; the family hint requires IPv4 but
the text is not an IPv4 literal ⇒ `EAI_NONAME`, symmetrically for IPv6;
every successful result's family is IPv4 when the text is an IPv4 literal
and IPv6 otherwise, and outside the failure conditions the call does
succeed. -/
theorem make_addrinfo_family_classification (ip : String) (hints : Option Hints) :
    ((inet_pton4 ip.data).isSome = false → (inet_pton6 ip.data).isSome = false →
      make_addrinfo_list ip hints = .err EAI_NONAME)
  ∧ (hintFamily hints = AF_INET → (inet_pton4 ip.data).isSome = false →
      make_addrinfo_list ip hints = .err EAI_NONAME)
  ∧ (hintFamily hints = AF_INET6 → (inet_pton6 ip.data).isSome = false →
      make_addrinfo_list ip hints = .err EAI_NONAME)
  ∧ (∀ ai, make_addrinfo_list ip hints = .ok ai →
      ai.family = (if (inet_pton4 ip.data).isSome then AF_INET else AF_INET6))
  ∧ (((inet_pton4 ip.data).isSome = true ∨ (inet_pton6 ip.data).isSome = true) →
     (hintFamily hints = AF_INET → (inet_pton4 ip.data).isSome = true) →
     (hintFamily hints = AF_INET6 → (inet_pton6 ip.data).isSome = true) →
     ∃ ai, make_addrinfo_list ip hints = .ok ai) := by
  refine ⟨?_, ?_, ?_, ?_, ?_⟩
  · intro h4 h6
    simp [make_addrinfo_list, h4, h6]
  · intro hf h4
    by_cases h6 : (inet_pton6 ip.data).isSome
    · simp [make_addrinfo_list, h4, h6, hf]
    · rw [Bool.not_eq_true] at h6
      simp [make_addrinfo_list, h4, h6]
  · intro hf h6
    by_cases h4 : (inet_pton4 ip.data).isSome
    · have hne : (hintFamily hints == AF_INET) = false := by
        rw [hf]; decide
      simp [make_addrinfo_list, h4, h6, hf, hne]
    · rw [Bool.not_eq_true] at h4
      simp [make_addrinfo_list, h4, h6]
  · intro ai h
    simp only [make_addrinfo_list] at h
    split at h
    · cases h
    · split at h
      · cases h
      · split at h
        · cases h
        · split at h
          · rename_i hcond
            cases h
            by_cases h4 : (inet_pton4 ip.data).isSome
            · simp [AddrInfo.family, h4]
            · rw [Bool.not_eq_true] at h4
              rw [h4] at hcond
              exact absurd hcond (by decide)
          · rename_i hcond
            cases h
            by_cases h4 : (inet_pton4 ip.data).isSome
            · rw [h4] at hcond
              exact absurd (by decide) hcond
            · rw [Bool.not_eq_true] at h4
              simp [AddrInfo.family, h4]
  · intro hor hf4 hf6
    have e1 : (!(inet_pton4 ip.data).isSome && !(inet_pton6 ip.data).isSome) = false := by
      rcases hor with h | h <;> simp [h]
    have e2 : ((hintFamily hints == AF_INET) && !(inet_pton4 ip.data).isSome) = false := by
      by_cases h4 : (inet_pton4 ip.data).isSome
      · simp [h4]
      · rw [Bool.not_eq_true] at h4
        have hne : hintFamily hints ≠ AF_INET := by
          intro hh
          rw [hf4 hh] at h4
          exact absurd h4 (by decide)
        simp [beq_eq_false_iff_ne.mpr hne]
    have e3 : ((hintFamily hints == AF_INET6) && !(inet_pton6 ip.data).isSome) = false := by
      by_cases h6 : (inet_pton6 ip.data).isSome
      · simp [h6]
      · rw [Bool.not_eq_true] at h6
        have hne : hintFamily hints ≠ AF_INET6 := by
          intro hh
          rw [hf6 hh] at h6
          exact absurd h6 (by decide)
        simp [beq_eq_false_iff_ne.mpr hne]
    simp only [make_addrinfo_list, e1, e2, e3, Bool.false_eq_true, if_false]
    split
    · exact ⟨_, rfl⟩
    · exact ⟨_, rfl⟩

/-- C2 witness: the classification at concrete inputs — an unparsable
text, a family mismatch in each direction, and a successful IPv4
synthesis. -/
theorem make_addrinfo_family_classification_witness :
    make_addrinfo_list "garbage" none = .err EAI_NONAME
  ∧ make_addrinfo_list "2001:db8::1" (some ⟨AF_INET, 1, 6⟩) = .err EAI_NONAME
  ∧ make_addrinfo_list "10.0.0.10" (some ⟨AF_INET6, 1, 6⟩) = .err EAI_NONAME
  ∧ (∃ ai, make_addrinfo_list "10.0.0.10" none = .ok ai) :=
  ⟨(make_addrinfo_family_classification "garbage" none).1 rfl rfl,
   (make_addrinfo_family_classification "2001:db8::1" (some ⟨AF_INET, 1, 6⟩)).2.1 rfl rfl,
   (make_addrinfo_family_classification "10.0.0.10" (some ⟨AF_INET6, 1, 6⟩)).2.2.1 rfl rfl,
   (make_addrinfo_family_classification "10.0.0.10" none).2.2.2.2 (Or.inl rfl)
     (fun _ => rfl) (fun hh => absurd hh (by decide))⟩

end OverrideHosts
